import Mathlib

/-!
Shallow embedding of the felix-dns resolution engine.

Source files embedded here:
* `felix-dns/src/domain_map.rs`          — in-memory domain table
* `felix-dns/src/sqlite_domain_store.rs` — persistent domain table
* `felix-dns/src/resolver_state.rs`      — backend dispatch
* `felix-dns/src/server_handler.rs`      — per-packet query handler

Modelling decisions:
* Rust `String` values are modelled as their UTF-8 byte sequences,
  `List Nat` (`'.'` is byte 46, `'*'` is byte 42).  `make_ascii_lowercase`
  acts byte-wise on 65..90, exactly as in Rust.
* `HashMap<String, Ipv4Addr>` and the SQLite table `domain_mappings`
  (one row per domain, primary-key equality lookup) are both modelled as
  association lists with insert-overwrites semantics; the SQL layer is out
  of scope per the spec ("consumed as an async key-value-like table with
  equality lookup"), so `get_exact_match` is a pure lookup and storage
  errors are supplied by an explicit oracle where they matter.
* The DNS wire codec (`trust_dns_proto`) is out of scope per the spec;
  messages are structured values, `Message::from_vec` outcomes are an
  input (`Option Message`), and `emit`/`send_to` are recorded as outbound
  actions instead of byte encodings.
* The tokio I/O of `forward_udp_and_relay` (ephemeral socket bind, send,
  2-second timeout, recv) is an environment outcome `ForwardOutcome`;
  the function maps each outcome to the datagrams actually sent and the
  `Result` returned, exactly following the `?` operators in the source.
-/

namespace Felix

/-- A Rust `String` as its UTF-8 bytes. -/
abbrev Str := List Nat

/-- The byte of the character `.` (0x2E). -/
def dotB : Nat := 46

/-- The byte of the character `*` (0x2A). -/
def starB : Nat := 42

/-- Rust `std::net::Ipv4Addr`: four octets. -/
structure Ipv4 where
  a : Nat
  b : Nat
  c : Nat
  d : Nat
deriving DecidableEq

/-- One byte of `str::make_ascii_lowercase` / `to_ascii_lowercase`:
ASCII `A`..`Z` (65..90) gains 32, everything else is unchanged. -/
def lowerByte (b : Nat) : Nat := if 65 ≤ b ∧ b ≤ 90 then b + 32 else b

/-- Rust `s.to_ascii_lowercase()`. -/
def lowerStr (s : Str) : Str := s.map lowerByte

/-- Rust `if s.ends_with('.') { s.pop(); }` — strip one trailing dot. -/
def stripTrailingDot (s : Str) : Str :=
  if s.getLast? = some dotB then s.dropLast else s

/-- The normalization used by `set` and by the exact-match side of
`resolve`: lowercase, then strip one trailing dot. -/
def normalize (s : Str) : Str := stripTrailingDot (lowerStr s)

/-- Rust `qname.split('.')` — split at every dot byte; like Rust `str::split`,
the result is never empty and empty parts are kept. -/
def splitOnDot : Str → List Str
  | [] => [[]]
  | c :: rest =>
    if c = dotB then [] :: splitOnDot rest
    else
      match splitOnDot rest with
      | [] => [[c]]
      | p :: ps => (c :: p) :: ps

/-- Rust `labels.join(".")`. -/
def joinDots : List Str → Str
  | [] => []
  | [x] => x
  | x :: y :: rest => x ++ dotB :: joinDots (y :: rest)

/-- Bytes of a Lean string literal, for concrete test inputs. -/
def strBytes (s : String) : Str := s.data.map Char.toNat

/-- The association-list model shared by `HashMap<String, Ipv4Addr>` and
the `domain_mappings` table: first binding of a key wins. -/
abbrev DMap := List (Str × Ipv4)

/-- Key-equality lookup (`HashMap::get` / the SQL `WHERE domain = ?`). -/
def mapGet : DMap → Str → Option Ipv4
  | [], _ => none
  | (k, v) :: rest, q => if k = q then some v else mapGet rest q

/-- Insert-overwrites (`HashMap::insert` / `INSERT OR REPLACE`). -/
def mapInsert (m : DMap) (k : Str) (v : Ipv4) : DMap :=
  (k, v) :: m.filter (fun p => decide (p.1 ≠ k))

/-- Key deletion (`HashMap::remove` / `DELETE ... WHERE domain = ?`);
deleting an absent key is a no-op. -/
def mapErase (m : DMap) (k : Str) : DMap :=
  m.filter (fun p => decide (p.1 ≠ k))

/-- Rust `format!("*.{}", labels.join("."))`. -/
def wildcardKey (labels : List Str) : Str :=
  starB :: dotB :: joinDots labels

/-- The wildcard keys probed by the `for i in 0..labels.len()-1` loop of
`resolve`, in probe order: `*.`+`labels[i+1..].join(".")` for ascending
`i`, i.e. from the most-specific suffix to the least. -/
def wildcardCandidates : List Str → List Str
  | [] => []
  | [_] => []
  | _ :: y :: rest => wildcardKey (y :: rest) :: wildcardCandidates (y :: rest)

namespace DomainMap

/-- Rust `DomainMap::set`: lowercase, strip one trailing dot, insert. -/
def set (m : DMap) (domain : Str) (ip : Ipv4) : DMap :=
  mapInsert m (normalize domain) ip

/-- Rust `DomainMap::remove`.  The source computes the normalized key `k`
(lowercased, trailing dot stripped) but then never uses it: the call is
`self.map.remove(&domain.to_ascii_lowercase())`, so the removal key is
lowercased only — the trailing dot is NOT stripped. -/
def remove (m : DMap) (domain : Str) : DMap :=
  mapErase m (lowerStr domain)

/-- Rust `DomainMap::resolve`: exact lookup on the normalized name first, then
the wildcard probes built from the ORIGINAL `qname` split on `.` (the
source splits `qname`, not the lowercased `lc`), first hit wins. -/
def resolve (m : DMap) (qname : Str) : Option Ipv4 :=
  match mapGet m (normalize qname) with
  | some ip => some ip
  | none => (wildcardCandidates (splitOnDot qname)).findSome? (fun c => mapGet m c)

/-- Rust `DomainMap::list`: snapshot of all entries. -/
def list (m : DMap) : List (Str × Ipv4) := m

end DomainMap

namespace SqliteDomainStore

/-- Rust `SqliteDomainStore::set`: same normalization as the in-memory table,
`INSERT OR REPLACE` upsert. -/
def set (st : DMap) (domain : Str) (ip : Ipv4) : DMap :=
  mapInsert st (normalize domain) ip

/-- Rust `SqliteDomainStore::remove`: here the normalized (lowercased AND
dot-stripped) key really is the one deleted. -/
def remove (st : DMap) (domain : Str) : DMap :=
  mapErase st (normalize domain)

/-- Rust `SqliteDomainStore::get_exact_match`: primary-key equality lookup. -/
def get_exact_match (st : DMap) (domain : Str) : Option Ipv4 :=
  mapGet st domain

/-- Rust `SqliteDomainStore::resolve` (error-free storage behaviour): exact
lookup on the normalized name, then wildcard probes built from the
NORMALIZED `qname` — unlike `DomainMap::resolve`, which splits the
original query. -/
def resolve (st : DMap) (qname : Str) : Option Ipv4 :=
  let nq := normalize qname
  match get_exact_match st nq with
  | some ip => some ip
  | none => (wildcardCandidates (splitOnDot nq)).findSome? (fun c => get_exact_match st c)

end SqliteDomainStore

deriving instance DecidableEq for Except

/-- Rust `std::net::SocketAddr`, abstracted. -/
structure SocketAddr where
  host : Nat
  port : Nat
deriving DecidableEq

/-- A storage-layer failure of the persistent backend. -/
structure StorageErr where
  code : Nat
deriving DecidableEq

/-- Rust `DomainStorage`: the closed two-variant backend choice. -/
inductive DomainStorage where
  | inMemory (m : DMap)
  | sqlite (st : DMap)
deriving DecidableEq

/-- Rust `ResolverState` (locks elided: each field is an independent cell). -/
structure ResolverState where
  enabled : Bool
  storage : DomainStorage
  upstream : SocketAddr
deriving DecidableEq

namespace ResolverState

/-- Rust `ResolverState::resolve`.  The in-memory backend never errors; the
persistent backend's I/O outcome is supplied by the oracle `sqErr`:
`some e` is a storage failure, `none` means the table answers. -/
def resolve (rs : ResolverState) (sqErr : Option StorageErr) (qname : Str) :
    Except StorageErr (Option Ipv4) :=
  match rs.storage with
  | .inMemory m => .ok (DomainMap.resolve m qname)
  | .sqlite st =>
    match sqErr with
    | some e => .error e
    | none => .ok (SqliteDomainStore.resolve st qname)

/-- Rust `ResolverState::resolve_sync`: in-memory resolves; against the SQLite
backend it only logs a warning and returns `None`, never touching the
store. -/
def resolve_sync (rs : ResolverState) (qname : Str) : Option Ipv4 :=
  match rs.storage with
  | .inMemory m => DomainMap.resolve m qname
  | .sqlite _ => none

/-- Rust `ResolverState::add_domain_sync`: in-memory inserts; against the
SQLite backend it only logs a warning and changes nothing. -/
def add_domain_sync (rs : ResolverState) (domain : Str) (ip : Ipv4) : ResolverState :=
  match rs.storage with
  | .inMemory m => { rs with storage := .inMemory (DomainMap.set m domain ip) }
  | .sqlite _ => rs

end ResolverState

/-- Rust `trust_dns_proto::op::MessageType`. -/
inductive MessageType where
  | query
  | response
deriving DecidableEq

/-- Rust `trust_dns_proto::op::OpCode` (only `Query` is used). -/
inductive OpCode where
  | query
  | other (code : Nat)
deriving DecidableEq

/-- Rust `trust_dns_proto::op::ResponseCode` (only `NoError`/`ServFail` used). -/
inductive ResponseCode where
  | noError
  | servFail
  | other (code : Nat)
deriving DecidableEq

/-- Rust `trust_dns_proto::rr::RecordType` (the handler only tests A and ANY). -/
inductive RecordType where
  | A
  | ANY
  | other (code : Nat)
deriving DecidableEq

/-- Rust `trust_dns_proto::rr::RData` (only A records are synthesized). -/
inductive RData where
  | A (ip : Ipv4)
  | other (code : Nat)
deriving DecidableEq

/-- Rust `trust_dns_proto::rr::Record` as built by `Record::from_rdata`. -/
structure Record where
  name : Str
  ttl : Nat
  rdata : RData
deriving DecidableEq

/-- A DNS question: name (utf8 rendering) and record type. -/
structure Query where
  name : Str
  query_type : RecordType
deriving DecidableEq

/-- Rust `trust_dns_proto::op::Message`, the fields the handler touches. -/
structure Message where
  id : Nat
  message_type : MessageType
  op_code : OpCode
  authoritative : Bool
  response_code : ResponseCode
  queries : List Query
  answers : List Record
deriving DecidableEq

/-- Rust `Message::new()` defaults. -/
def Message.new : Message :=
  { id := 0
    message_type := .query
    op_code := .query
    authoritative := false
    response_code := .noError
    queries := []
    answers := [] }

/-- Failure modes of `forward_udp_and_relay`: ephemeral-socket bind
error, upstream send error, recv error, or the 2-second timeout. -/
inductive ForwardError where
  | bindError
  | sendError
  | recvError
  | timeout
deriving DecidableEq

/-- The environment's outcome for one upstream exchange. -/
inductive ForwardOutcome where
  | ok (resp : Str)
  | err (e : ForwardError)
deriving DecidableEq

/-- The `timeout(Duration::from_secs(2), ...)` bound, in seconds. -/
def forwardTimeoutSecs : Nat := 2

/-- A datagram actually sent by the handler. -/
inductive Outbound where
  | reply (msg : Message) (dest : SocketAddr)
  | relay (bytes : Str) (dest : SocketAddr)
  | forwardQuery (bytes : Str) (dest : SocketAddr)
deriving DecidableEq

/-- Picks the datagrams addressed to the original client. -/
def Outbound.isClientSend : Outbound → Bool
  | .reply _ _ => true
  | .relay _ _ => true
  | .forwardQuery _ _ => false

/-- Rust `forward_udp_and_relay`: bind an ephemeral socket, send the original
bytes upstream, await the reply for 2 s, relay it verbatim to the client.
Each `?` failure point maps an outcome to the datagrams sent so far plus
the returned error. -/
def forward_udp_and_relay (packet : Str) (upstream client : SocketAddr)
    (fwd : ForwardOutcome) : List Outbound × Except ForwardError Unit :=
  match fwd with
  | .err .bindError => ([], .error .bindError)
  | .err .sendError => ([], .error .sendError)
  | .err .recvError => ([.forwardQuery packet upstream], .error .recvError)
  | .err .timeout => ([.forwardQuery packet upstream], .error .timeout)
  | .ok resp => ([.forwardQuery packet upstream, .relay resp client], .ok ())

/-- The synthesized local answer: same id, response flag, opcode Query,
authoritative, the question echoed, one A record with TTL 60. -/
def answer_response (req : Message) (query : Query) (ip : Ipv4) : Message :=
  { Message.new with
    id := req.id
    message_type := .response
    op_code := .query
    authoritative := true
    queries := [query]
    answers := [{ name := query.name, ttl := 60, rdata := RData.A ip }] }

/-- The synthesized SERVFAIL: same id, response flag, opcode Query,
authoritative, response code ServFail, the question echoed, no answers. -/
def servfail_response (req : Message) (query : Query) : Message :=
  { Message.new with
    id := req.id
    message_type := .response
    op_code := .query
    authoritative := true
    response_code := .servFail
    queries := [query] }

/-- Rust `handle_packet`.  `decoded` is the outcome of `Message::from_vec`,
`sqErr` the storage oracle for `state.resolve`, `fwd` the upstream-
exchange outcome.  Returns the datagrams sent and the handler's
`Result`. -/
def handle_packet (packet : Str) (src : SocketAddr) (rs : ResolverState)
    (sqErr : Option StorageErr) (decoded : Option Message)
    (fwd : ForwardOutcome) : List Outbound × Except ForwardError Unit :=
  match decoded with
  | none => ([], .ok ())
  | some msg =>
    match msg.queries with
    | [] => ([], .ok ())
    | query :: _ =>
      let forwardPath : List Outbound × Except ForwardError Unit :=
        match forward_udp_and_relay packet rs.upstream src fwd with
        | (outs, .ok _) => (outs, .ok ())
        | (outs, .error e) =>
          (outs ++ [.reply (servfail_response msg query) src], .error e)
      match rs.resolve sqErr query.name with
      | .ok (some ip) =>
        if query.query_type = RecordType.A ∨ query.query_type = RecordType.ANY then
          ([.reply (answer_response msg query ip) src], .ok ())
        else forwardPath
      | _ => forwardPath

/-! Concrete fixtures used by the closed witness instances. -/

/-- Address 127.0.0.1. -/
def ip0 : Ipv4 := ⟨127, 0, 0, 1⟩

/-- A client address. -/
def src0 : SocketAddr := ⟨1, 1⟩

/-- An upstream resolver address. -/
def up0 : SocketAddr := ⟨9, 53⟩

/-- An A question for `local.dev`. -/
def q0 : Query := ⟨strBytes "local.dev", .A⟩

/-- A request carrying `q0`. -/
def msg0 : Message := { Message.new with id := 42, queries := [q0] }

/-- A table mapping `local.dev` to 127.0.0.1. -/
def mapLocal : DMap := DomainMap.set [] (strBytes "local.dev") ip0

/-- In-memory resolver state over `mapLocal`. -/
def rsMem : ResolverState := ⟨true, .inMemory mapLocal, up0⟩

/-- In-memory resolver state over the empty table. -/
def rsMemEmpty : ResolverState := ⟨true, .inMemory [], up0⟩

/-- An A question for an unmapped name. -/
def qX : Query := ⟨strBytes "nomap.dev", .A⟩

/-- A request carrying `qX`. -/
def msgX : Message := { Message.new with id := 7, queries := [qX] }

/-- SQLite-backed resolver state whose table maps `x.dev`. -/
def rsSq : ResolverState := ⟨true, .sqlite [(strBytes "x.dev", ip0)], up0⟩

/-! Helper lemmas about the byte-level normalization. -/

theorem lowerByte_dot : lowerByte dotB = dotB := by decide

theorem lowerByte_star : lowerByte starB = starB := by decide

theorem lowerByte_eq_dot {b : Nat} (h : lowerByte b = dotB) : b = dotB := by
  simp only [lowerByte, dotB] at h ⊢
  split at h <;> omega

theorem lowerStr_getLast_ne_dot {s : Str} (h : s.getLast? ≠ some dotB) :
    (lowerStr s).getLast? ≠ some dotB := by
  intro hc
  rw [lowerStr, List.getLast?_map] at hc
  cases hl : s.getLast? with
  | none => rw [hl] at hc; simp at hc
  | some b =>
    rw [hl] at hc
    simp only [Option.map_some'] at hc
    exact h (by rw [hl, lowerByte_eq_dot (Option.some.inj hc)])

theorem normalize_of_getLast_ne_dot {s : Str} (h : s.getLast? ≠ some dotB) :
    normalize s = lowerStr s := by
  unfold normalize stripTrailingDot
  rw [if_neg (lowerStr_getLast_ne_dot h)]

theorem normalize_append_dot (s : Str) : normalize (s ++ [dotB]) = lowerStr s := by
  unfold normalize stripTrailingDot
  have h1 : lowerStr (s ++ [dotB]) = lowerStr s ++ [dotB] := by
    simp [lowerStr, lowerByte_dot]
  rw [h1, if_pos (List.getLast?_concat _), List.dropLast_concat]

/-! Helper lemmas about the association-list map. -/

theorem mapGet_insert_self (m : DMap) (k : Str) (v : Ipv4) :
    mapGet (mapInsert m k v) k = some v := by
  simp [mapInsert, mapGet]

theorem mapGet_singleton (k c : Str) (v : Ipv4) :
    mapGet [(k, v)] c = if k = c then some v else none := rfl

/-- Shared exact-match fact: `set` stores under `normalize name`, and
`resolve` checks `normalize qname` first, so any query with the same
normalized form as a freshly stored name resolves to its address. -/
theorem resolve_set_exact (m : DMap) (n q : Str) (ip : Ipv4)
    (h : normalize q = normalize n) :
    DomainMap.resolve (DomainMap.set m n ip) q = some ip := by
  unfold DomainMap.resolve DomainMap.set
  rw [h, mapGet_insert_self]

/-! Helper lemmas about splitting and joining on dots. -/

theorem splitOnDot_ne_nil (s : Str) : splitOnDot s ≠ [] := by
  cases s with
  | nil => simp [splitOnDot]
  | cons c rest =>
    unfold splitOnDot
    split
    · simp
    · cases h : splitOnDot rest <;> simp

theorem splitOnDot_exists_cons (s : Str) : ∃ p ps, splitOnDot s = p :: ps := by
  cases h : splitOnDot s with
  | nil => exact absurd h (splitOnDot_ne_nil s)
  | cons p ps => exact ⟨p, ps, rfl⟩

theorem splitOnDot_append (a b : Str) :
    splitOnDot (a ++ dotB :: b) = splitOnDot a ++ splitOnDot b := by
  induction a with
  | nil => simp [splitOnDot]
  | cons c a ih =>
    by_cases hc : c = dotB
    · subst hc
      simp [splitOnDot, ih]
    · obtain ⟨p, ps, hps⟩ := splitOnDot_exists_cons a
      simp [splitOnDot, if_neg hc, ih, hps]

theorem joinDots_single (x : Str) : joinDots [x] = x := rfl

theorem joinDots_cons_cons (x y : Str) (rest : List Str) :
    joinDots (x :: y :: rest) = x ++ dotB :: joinDots (y :: rest) := rfl

theorem joinDots_splitOnDot (s : Str) : joinDots (splitOnDot s) = s := by
  induction s with
  | nil => rfl
  | cons c rest ih =>
    by_cases hc : c = dotB
    · subst hc
      obtain ⟨p, ps, hps⟩ := splitOnDot_exists_cons rest
      rw [hps] at ih
      simp [splitOnDot, hps, joinDots_cons_cons, ih]
    · obtain ⟨p, ps, hps⟩ := splitOnDot_exists_cons rest
      rw [hps] at ih
      cases ps with
      | nil =>
        simp only [joinDots_single] at ih
        simp only [splitOnDot, if_neg hc, hps, joinDots_single, ih]
      | cons p2 ps2 =>
        simp only [joinDots_cons_cons] at ih
        simp only [splitOnDot, if_neg hc, hps, joinDots_cons_cons, List.cons_append, ih]

/-! Helper lemmas about the wildcard probe list. -/

theorem wildcardCandidates_cons (x y : Str) (rest : List Str) :
    wildcardCandidates (x :: y :: rest)
      = wildcardKey (y :: rest) :: wildcardCandidates (y :: rest) := rfl

theorem wildcardKey_eq (s : Str) : wildcardKey (splitOnDot s) = starB :: dotB :: s := by
  simp [wildcardKey, joinDots_splitOnDot]

theorem wildcardKey_mem_append (ls₁ ls₂ : List Str) (h₁ : ls₁ ≠ []) (h₂ : ls₂ ≠ []) :
    wildcardKey ls₂ ∈ wildcardCandidates (ls₁ ++ ls₂) := by
  induction ls₁ with
  | nil => exact absurd rfl h₁
  | cons x xs ih =>
    cases xs with
    | nil =>
      cases ls₂ with
      | nil => exact absurd rfl h₂
      | cons y ys =>
        simp only [List.cons_append, List.nil_append, wildcardCandidates_cons]
        exact List.mem_cons_self _ _
    | cons x2 xs2 =>
      have h := ih (by simp)
      simp only [List.cons_append] at h ⊢
      rw [wildcardCandidates_cons]
      exact List.mem_cons_of_mem _ h

theorem wildcardCandidates_length_lt (ls : List Str) :
    ∀ c ∈ wildcardCandidates ls, c.length < (wildcardKey ls).length := by
  induction ls with
  | nil => intro c hc; simp [wildcardCandidates] at hc
  | cons x xs ih =>
    cases xs with
    | nil => intro c hc; simp [wildcardCandidates] at hc
    | cons y ys =>
      intro c hc
      rw [wildcardCandidates_cons] at hc
      rcases List.mem_cons.mp hc with h | h
      · subst h
        simp only [wildcardKey, joinDots_cons_cons, List.length_cons, List.length_append]
        omega
      · have := ih c h
        simp only [wildcardKey, joinDots_cons_cons, List.length_cons,
          List.length_append] at this ⊢
        omega

theorem findSome?_mapGet_singleton {k : Str} {v : Ipv4} {cs : List Str} (h : k ∈ cs) :
    cs.findSome? (fun c => mapGet [(k, v)] c) = some v := by
  induction cs with
  | nil => simp at h
  | cons c cs ih =>
    rw [List.findSome?_cons]
    by_cases hk : k = c
    · subst hk
      simp [mapGet]
    · have hn : mapGet [(k, v)] c = none := by simp [mapGet, hk]
      rw [hn]
      rcases List.mem_cons.mp h with h | h
      · exact absurd h hk
      · exact ih h

/-- A query that hits one of its wildcard probes resolves on a singleton
table to the stored address (the exact branch, if it hits at all, can
only return the same value). -/
theorem resolve_singleton_of_mem {key q : Str} {ip : Ipv4}
    (h : key ∈ wildcardCandidates (splitOnDot q)) :
    DomainMap.resolve [(key, ip)] q = some ip := by
  unfold DomainMap.resolve
  cases hg : mapGet [(key, ip)] (normalize q) with
  | some v =>
    rw [mapGet_singleton] at hg
    split at hg
    · rw [Option.some.inj hg]
    · exact absurd hg (by simp)
  | none => exact findSome?_mapGet_singleton h

/-- A query that misses exactly and on every wildcard probe resolves on a
singleton table to nothing. -/
theorem resolve_singleton_none {key q : Str} {ip : Ipv4}
    (hx : key ≠ normalize q)
    (hc : ∀ c ∈ wildcardCandidates (splitOnDot q), key ≠ c) :
    DomainMap.resolve [(key, ip)] q = none := by
  unfold DomainMap.resolve
  rw [mapGet_singleton, if_neg hx]
  exact List.findSome?_eq_none_iff.mpr
    (fun c hcm => by rw [mapGet_singleton, if_neg (hc c hcm)])

theorem wildcardCandidates_eq_range (ls : List Str) :
    wildcardCandidates ls
      = (List.range (ls.length - 1)).map (fun i => wildcardKey (ls.drop (i + 1))) := by
  induction ls with
  | nil => rfl
  | cons x xs ih =>
    cases xs with
    | nil => rfl
    | cons y ys =>
      rw [wildcardCandidates_cons, ih]
      simp [List.range_succ_eq_map, List.map_map, Function.comp, List.drop_succ_cons]

/-- The in-memory resolver consults no wildcard probe on a single-label
query: it reduces to the exact lookup. -/
theorem resolve_single_label (m : DMap) (q : Str)
    (h : (splitOnDot q).length = 1) :
    DomainMap.resolve m q = mapGet m (normalize q) := by
  obtain ⟨p, ps, hps⟩ := splitOnDot_exists_cons q
  have hnil : ps = [] := by
    rw [hps, List.length_cons] at h
    have hz : ps.length = 0 := by omega
    exact List.length_eq_zero.mp hz
  subst hnil
  unfold DomainMap.resolve
  rw [hps]
  cases mapGet m (normalize q) <;> simp [wildcardCandidates]

/-- The empty persistent table resolves nothing. -/
theorem sqlite_resolve_nil (q : Str) : SqliteDomainStore.resolve [] q = none := by
  simp [SqliteDomainStore.resolve, SqliteDomainStore.get_exact_match, mapGet,
    List.findSome?_eq_none_iff]

/-! Claim theorems. -/

/-- C10: with the SQLite (persistent) backend, `resolve_sync` returns
`none` for every query without consulting the store (the result is the
same for any table contents), `add_domain_sync` leaves the state — and
hence the store — unchanged, so a subsequent resolve of the added name
behaves exactly as before the call; the synchronous variants only have
an effect on the in-memory backend. -/
theorem sync_variants_noop_on_sqlite (en : Bool) (up : SocketAddr)
    (st st2 : DMap) (q n : Str) (ip : Ipv4) :
    ResolverState.resolve_sync ⟨en, .sqlite st, up⟩ q = none
    ∧ ResolverState.resolve_sync ⟨en, .sqlite st, up⟩ q
        = ResolverState.resolve_sync ⟨en, .sqlite st2, up⟩ q
    ∧ ResolverState.add_domain_sync ⟨en, .sqlite st, up⟩ n ip = ⟨en, .sqlite st, up⟩
    ∧ (ResolverState.add_domain_sync ⟨en, .sqlite st, up⟩ n ip).resolve none n
        = ResolverState.resolve ⟨en, .sqlite st, up⟩ none n :=
  ⟨rfl, rfl, rfl, rfl⟩

/-- C8: an undecodable packet, or a decoded message carrying zero
questions, produces no outbound datagram at all (no reply, no forward)
and the handler returns success. -/
theorem handle_packet_drops_malformed (packet : Str) (src : SocketAddr)
    (rs : ResolverState) (sqErr : Option StorageErr) (decoded : Option Message)
    (fwd : ForwardOutcome)
    (h : decoded = none ∨ ∃ msg, decoded = some msg ∧ msg.queries = []) :
    handle_packet packet src rs sqErr decoded fwd = ([], Except.ok ()) := by
  rcases h with h | ⟨msg, h, hq⟩
  · subst h; rfl
  · subst h
    simp [handle_packet, hq]

/-- Witness for C8 at a concrete undecodable packet. -/
theorem handle_packet_drops_malformed_w :
    ((none : Option Message) = none
        ∨ ∃ msg, (none : Option Message) = some msg ∧ msg.queries = [])
    ∧ handle_packet (strBytes "xx") src0 rsMem none none (.err .timeout)
        = ([], Except.ok ()) :=
  ⟨Or.inl rfl, handle_packet_drops_malformed _ _ _ _ _ _ (Or.inl rfl)⟩

/-- C9: when the Resolver State's resolve reports a storage error the
handler behaves exactly as on a local-resolution miss — its run equals
the run whose backend misses — and in particular, on a successful
upstream exchange, it forwards the original request bytes to the
upstream address and relays the reply instead of aborting the query. -/
theorem handle_packet_storage_error_forwards (packet : Str) (src : SocketAddr)
    (en : Bool) (st : DMap) (up : SocketAddr) (se : StorageErr)
    (decoded : Option Message) (fwd : ForwardOutcome) (msg : Message)
    (query : Query) (rest : List Query) (resp : Str) :
    handle_packet packet src ⟨en, .sqlite st, up⟩ (some se) decoded fwd
      = handle_packet packet src ⟨en, .sqlite [], up⟩ none decoded fwd
    ∧ (decoded = some msg → msg.queries = query :: rest → fwd = .ok resp →
        handle_packet packet src ⟨en, .sqlite st, up⟩ (some se) decoded fwd
          = ([.forwardQuery packet up, .relay resp src], Except.ok ())) := by
  constructor
  · cases decoded with
    | none => rfl
    | some m2 =>
      cases hq : m2.queries with
      | nil => simp [handle_packet, hq]
      | cons q2 qs2 =>
        simp [handle_packet, hq, ResolverState.resolve, sqlite_resolve_nil]
  · intro hd hq hf
    subst hd; subst hf
    simp [handle_packet, hq, ResolverState.resolve, forward_udp_and_relay]

/-- Witness for C9: a populated SQLite table whose storage call errors —
the handler forwards upstream and relays the reply. -/
theorem handle_packet_storage_error_forwards_w :
    handle_packet (strBytes "qq") src0 ⟨true, .sqlite [(strBytes "x.dev", ip0)], up0⟩
        (some ⟨5⟩) (some msgX) (.ok (strBytes "resp"))
      = ([.forwardQuery (strBytes "qq") up0, .relay (strBytes "resp") src0],
         Except.ok ()) :=
  (handle_packet_storage_error_forwards (strBytes "qq") src0 true
      [(strBytes "x.dev", ip0)] up0 ⟨5⟩ (some msgX) (.ok (strBytes "resp"))
      msgX qX [] (strBytes "resp")).2 rfl rfl rfl

/-- C4 (failing input): `DomainMap::remove` deletes the lowercased but
NOT dot-stripped key — the source computes the normalized key and never
uses it — so an entry stored under a trailing-dot name survives its own
removal and still resolves afterwards. -/
theorem remove_trailing_dot_bug :
    DomainMap.resolve
      (DomainMap.remove
        (DomainMap.set [] (strBytes "Example.COM.") ip0)
        (strBytes "Example.COM."))
      (strBytes "Example.COM.") = some ip0 := by decide

/-- C3 (counterexample): on identical table contents, the persistent
backend splits the NORMALIZED query for its wildcard probes while the
in-memory backend splits the ORIGINAL query, so an uppercase query under
a stored wildcard hits on SQLite and misses in memory. -/
theorem sqlite_resolve_ne_domain_map :
    SqliteDomainStore.resolve [(strBytes "*.example.com", ip0)]
        (strBytes "a.EXAMPLE.COM")
      ≠ DomainMap.resolve [(strBytes "*.example.com", ip0)]
          (strBytes "a.EXAMPLE.COM") := by decide

/-- C3 (amended): for queries already in normalized form (lowercase, no
trailing dot) the two backends perform the identical exact-then-wildcard
search and agree on every table content. -/
theorem sqlite_resolve_eq_domain_map_on_normalized (tbl : DMap) (q : Str)
    (h : normalize q = q) :
    SqliteDomainStore.resolve tbl q = DomainMap.resolve tbl q := by
  unfold SqliteDomainStore.resolve SqliteDomainStore.get_exact_match DomainMap.resolve
  rw [h]

/-- Witness for the amended C3 on a concrete normalized query. -/
theorem sqlite_resolve_eq_domain_map_on_normalized_w :
    normalize (strBytes "a.example.com") = strBytes "a.example.com"
    ∧ SqliteDomainStore.resolve [(strBytes "*.example.com", ip0)]
        (strBytes "a.example.com")
      = DomainMap.resolve [(strBytes "*.example.com", ip0)]
          (strBytes "a.example.com") :=
  ⟨by decide, sqlite_resolve_eq_domain_map_on_normalized _ _ (by decide)⟩

/-- C5 (counterexample): the wildcard scan splits the original,
non-lowercased query, so two case variants of the same query resolve
differently under a stored wildcard entry — changing the letter case of
the query can change the result. -/
theorem resolve_wildcard_case_sensitive :
    DomainMap.resolve (DomainMap.set [] (strBytes "*.example.com") ip0)
        (strBytes "api.example.com") = some ip0
    ∧ DomainMap.resolve (DomainMap.set [] (strBytes "*.example.com") ip0)
        (strBytes "api.EXAMPLE.COM") = none :=
  ⟨by decide, by decide⟩

/-- C5 (amended): exact-match lookup is defined on the lowercased,
dot-stripped form — any query whose normalized form equals a stored
name's normalized form returns the stored address, whatever its letter
case; only the wildcard-suffix probes compare the query text as-is. -/
theorem resolve_exact_case_insensitive (m : DMap) (n q : Str) (ip : Ipv4)
    (h : normalize q = normalize n) :
    DomainMap.resolve (DomainMap.set m n ip) q = some ip :=
  resolve_set_exact m n q ip h

/-- Witness for the amended C5: an upper-case, trailing-dot variant of a
stored name still resolves. -/
theorem resolve_exact_case_insensitive_w :
    normalize (strBytes "LOCAL.DEV.") = normalize (strBytes "local.dev")
    ∧ DomainMap.resolve (DomainMap.set [] (strBytes "local.dev") ip0)
        (strBytes "LOCAL.DEV.") = some ip0 :=
  ⟨by decide, resolve_exact_case_insensitive [] _ _ ip0 (by decide)⟩

/-- C6 (counterexample): for a name that itself ends in a dot the
trailing-dot round trip fails — `set "a."` stores `a`, but resolving
`"a.` + `."` normalizes to `a.` and misses. -/
theorem set_resolve_trailing_dot_cex :
    DomainMap.resolve (DomainMap.set [] (strBytes "a.") ip0)
      (strBytes "a." ++ [dotB]) ≠ some ip0 := by decide

/-- C6 (amended): for every table, name and address, `resolve(name)`
returns the address right after `set(name, ip)`; and when the name does
not already end in a dot, `resolve(name ++ ".")` returns it too. -/
theorem set_resolve_roundtrip (m : DMap) (n : Str) (ip : Ipv4) :
    DomainMap.resolve (DomainMap.set m n ip) n = some ip
    ∧ (n.getLast? ≠ some dotB →
        DomainMap.resolve (DomainMap.set m n ip) (n ++ [dotB]) = some ip) := by
  refine ⟨resolve_set_exact m n n ip rfl, fun h => ?_⟩
  exact resolve_set_exact m n (n ++ [dotB]) ip
    (by rw [normalize_append_dot, normalize_of_getLast_ne_dot h])

/-- Witness for the amended C6 at `local.dev`. -/
theorem set_resolve_roundtrip_w :
    (strBytes "local.dev").getLast? ≠ some dotB
    ∧ DomainMap.resolve (DomainMap.set [] (strBytes "local.dev") ip0)
        (strBytes "local.dev" ++ [dotB]) = some ip0 :=
  ⟨by decide, (set_resolve_roundtrip [] (strBytes "local.dev") ip0).2 (by decide)⟩

/-- C7: for a normalized suffix `s` (lowercase, nonempty, no trailing
dot), after `set("*." ++ s, ip)` on an empty table: every query made of
one or more labels followed by `.s` resolves to `ip`; `s` itself (no
label before the suffix) resolves to nothing; the wildcard probes of any
query are exactly `*.` + `labels[i+1..]` for ascending `i` — from the
most-specific suffix to the least, `number_of_labels - 1` probes; and a
single-label query reduces to the exact lookup, never matching any
wildcard entry. -/
theorem wildcard_suffix_matching (s : Str) (ip : Ipv4)
    (hlc : lowerStr s = s) (hdot : s.getLast? ≠ some dotB) (hne : s ≠ []) :
    (∀ l : Str,
        DomainMap.resolve (DomainMap.set [] (starB :: dotB :: s) ip)
          (l ++ dotB :: s) = some ip)
    ∧ DomainMap.resolve (DomainMap.set [] (starB :: dotB :: s) ip) s = none
    ∧ (∀ q : Str, wildcardCandidates (splitOnDot q)
        = (List.range ((splitOnDot q).length - 1)).map
            (fun i => wildcardKey ((splitOnDot q).drop (i + 1))))
    ∧ (∀ (m : DMap) (q : Str), (splitOnDot q).length = 1 →
        DomainMap.resolve m q = mapGet m (normalize q)) := by
  have h1 : lowerStr (starB :: dotB :: s) = starB :: dotB :: s := by
    simp only [lowerStr] at hlc ⊢
    rw [List.map_cons, List.map_cons, lowerByte_star, lowerByte_dot, hlc]
  have hlast : (starB :: dotB :: s).getLast? = s.getLast? := by
    cases s with
    | nil => exact absurd rfl hne
    | cons a t => simp
  have hkey : normalize (starB :: dotB :: s) = starB :: dotB :: s := by
    unfold normalize stripTrailingDot
    rw [h1, hlast, if_neg hdot]
  have hM : DomainMap.set [] (starB :: dotB :: s) ip = [(starB :: dotB :: s, ip)] := by
    simp [DomainMap.set, mapInsert, hkey]
  refine ⟨fun l => ?_, ?_, fun q => wildcardCandidates_eq_range (splitOnDot q),
    fun m q h => resolve_single_label m q h⟩
  · rw [hM]
    apply resolve_singleton_of_mem
    rw [splitOnDot_append, ← wildcardKey_eq]
    exact wildcardKey_mem_append _ _ (splitOnDot_ne_nil l) (splitOnDot_ne_nil s)
  · rw [hM]
    have hns : normalize s = s := by
      rw [normalize_of_getLast_ne_dot hdot, hlc]
    apply resolve_singleton_none
    · rw [hns]
      intro hcontra
      have hlen := congrArg List.length hcontra
      simp only [List.length_cons] at hlen
      omega
    · intro c hc hcontra
      have hlen := wildcardCandidates_length_lt (splitOnDot s) c hc
      rw [wildcardKey_eq, ← hcontra] at hlen
      exact absurd hlen (lt_irrefl _)

/-- Witness for C7 at the suffix `example.com`. -/
theorem wildcard_suffix_matching_w :
    lowerStr (strBytes "example.com") = strBytes "example.com"
    ∧ DomainMap.resolve
        (DomainMap.set [] (starB :: dotB :: strBytes "example.com") ip0)
        (strBytes "api" ++ dotB :: strBytes "example.com") = some ip0
    ∧ DomainMap.resolve
        (DomainMap.set [] (starB :: dotB :: strBytes "example.com") ip0)
        (strBytes "example.com") = none :=
  ⟨by decide,
   (wildcard_suffix_matching (strBytes "example.com") ip0 (by decide) (by decide)
      (by decide)).1 (strBytes "api"),
   (wildcard_suffix_matching (strBytes "example.com") ip0 (by decide) (by decide)
      (by decide)).2.1⟩

/-- C1: a decoded query whose first question the Resolver State resolves
to an address, with record type A or ANY, gets exactly one reply — same
transaction id, message type Response, authoritative, opcode Query, the
original question echoed back, and exactly one answer record of type A
with TTL 60 carrying the resolved address — and nothing is sent to the
upstream resolver. -/
theorem handle_packet_local_answer (packet : Str) (src : SocketAddr)
    (rs : ResolverState) (sqErr : Option StorageErr) (msg : Message)
    (query : Query) (rest : List Query) (ip : Ipv4) (fwd : ForwardOutcome)
    (hq : msg.queries = query :: rest)
    (hres : rs.resolve sqErr query.name = .ok (some ip))
    (htype : query.query_type = RecordType.A ∨ query.query_type = RecordType.ANY) :
    handle_packet packet src rs sqErr (some msg) fwd
      = ([Outbound.reply
            { id := msg.id
              message_type := .response
              op_code := .query
              authoritative := true
              response_code := .noError
              queries := [query]
              answers := [{ name := query.name, ttl := 60, rdata := RData.A ip }] }
            src],
         Except.ok ()) := by
  simp only [handle_packet, hq, hres]
  rw [if_pos htype]
  simp [answer_response, Message.new]

/-- Witness for C1: an A query for `local.dev` against the in-memory
table mapping it to 127.0.0.1. -/
theorem handle_packet_local_answer_w :
    rsMem.resolve none (strBytes "local.dev") = .ok (some ip0)
    ∧ handle_packet (strBytes "qq") src0 rsMem none (some msg0) (.err .timeout)
      = ([Outbound.reply
            { id := 42
              message_type := .response
              op_code := .query
              authoritative := true
              response_code := .noError
              queries := [q0]
              answers := [{ name := strBytes "local.dev", ttl := 60,
                            rdata := RData.A ip0 }] }
            src0],
         Except.ok ()) :=
  ⟨by decide,
   handle_packet_local_answer (strBytes "qq") src0 rsMem none msg0 q0 [] ip0
     (.err .timeout) rfl (by decide) (Or.inl rfl)⟩

/-- C2: a handled query that is not answered locally and whose forward
attempt fails gets exactly one client-bound datagram — a SERVFAIL
response with the same transaction id, message type Response,
authoritative, opcode Query, the original question echoed back, and no
answer records — and the handler returns the forwarding error. -/
theorem handle_packet_servfail_on_forward_failure (packet : Str)
    (src : SocketAddr) (rs : ResolverState) (sqErr : Option StorageErr)
    (msg : Message) (query : Query) (rest : List Query) (e : ForwardError)
    (hq : msg.queries = query :: rest)
    (hmiss : rs.resolve sqErr query.name = .ok none
      ∨ (∃ se, rs.resolve sqErr query.name = .error se)
      ∨ (query.query_type ≠ RecordType.A ∧ query.query_type ≠ RecordType.ANY)) :
    ((handle_packet packet src rs sqErr (some msg) (.err e)).1.filter
        Outbound.isClientSend
      = [Outbound.reply
          { id := msg.id
            message_type := .response
            op_code := .query
            authoritative := true
            response_code := .servFail
            queries := [query]
            answers := [] }
          src])
    ∧ (handle_packet packet src rs sqErr (some msg) (.err e)).2
        = Except.error e := by
  have key : handle_packet packet src rs sqErr (some msg) (.err e)
      = ((forward_udp_and_relay packet rs.upstream src (.err e)).1
          ++ [Outbound.reply (servfail_response msg query) src], Except.error e) := by
    cases hres : rs.resolve sqErr query.name with
    | error se2 =>
      simp only [handle_packet, hq, hres]
      cases e <;> rfl
    | ok o =>
      cases o with
      | none =>
        simp only [handle_packet, hq, hres]
        cases e <;> rfl
      | some ip =>
        rcases hmiss with h | ⟨se, h⟩ | ⟨h1, h2⟩
        · rw [hres] at h; simp at h
        · rw [hres] at h; simp at h
        · simp only [handle_packet, hq, hres]
          rw [if_neg (not_or.mpr ⟨h1, h2⟩)]
          cases e <;> rfl
  rw [key]
  cases e <;>
    simp [forward_udp_and_relay, servfail_response, Message.new, Outbound.isClientSend]

/-- Witness for C2: an unmapped A query whose forward attempt times out
yields exactly the SERVFAIL reply and the timeout error. -/
theorem handle_packet_servfail_on_forward_failure_w :
    rsMemEmpty.resolve none (strBytes "nomap.dev") = .ok none
    ∧ ((handle_packet (strBytes "qq") src0 rsMemEmpty none (some msgX)
          (.err .timeout)).1.filter Outbound.isClientSend
        = [Outbound.reply
            { id := 7
              message_type := .response
              op_code := .query
              authoritative := true
              response_code := .servFail
              queries := [qX]
              answers := [] }
            src0])
    ∧ (handle_packet (strBytes "qq") src0 rsMemEmpty none (some msgX)
          (.err .timeout)).2 = Except.error ForwardError.timeout := by
  refine ⟨by decide, ?_, ?_⟩
  · exact (handle_packet_servfail_on_forward_failure (strBytes "qq") src0 rsMemEmpty
      none msgX qX [] .timeout rfl (Or.inl (by decide))).1
  · exact (handle_packet_servfail_on_forward_failure (strBytes "qq") src0 rsMemEmpty
      none msgX qX [] .timeout rfl (Or.inl (by decide))).2

end Felix
